import Mathlib

/-!
Verification of the secure-link service core: a shallow embedding of the
link lifecycle engine (encryption codec, identifier deriver, store gateway,
and the generate/validate controller) together with proofs of the spec's
testable properties.

Conventions of the embedding:
  * Python byte strings are `List Nat`; Python `str` is `String`.
  * UTC datetimes are modelled as `Nat` seconds; `timedelta(hours=h)` is
    `h * 3600`.
  * Fallible Python code returns `Option` (`none` models a caught failure
    returning `None`); an uncaught exception escaping a function is also
    `none` of the surrounding `Option` result where noted.
-/

/-- JSON-like structured values: the payloads the service encrypts.
Mirrors Python `json`-serializable data (floats are not used by the
service and are omitted). Objects are ordered key/value lists, matching
Python dict insertion order. -/
inductive Json where
  | null : Json
  | bool (b : Bool) : Json
  | int (n : Int) : Json
  | str (s : String) : Json
  | arr (elems : List Json) : Json
  | obj (fields : List (String × Json)) : Json

/-- Python `dict.get`: first (unique) binding of a key, else `None`. -/
def jsonGet : List (String × Json) → String → Option Json
  | [], _ => none
  | (k, v) :: rest, k2 => if k = k2 then some v else jsonGet rest k2

/-- Python truthiness of a decoded JSON value (`if not x` tests). -/
def jsonTruthy : Json → Bool
  | .null => false
  | .bool b => b
  | .int n => n != 0
  | .str s => s != ""
  | .arr elems => !elems.isEmpty
  | .obj fields => !fields.isEmpty

/-- Length-prefixed encoding of a string as a byte-level token list. -/
def strEnc (s : String) : List Nat :=
  s.data.length :: s.data.map Char.toNat

/-- Self-delimiting encoding of an integer into one token. -/
def intEnc (n : Int) : Nat :=
  if 0 ≤ n then 2 * n.toNat else 2 * (-n).toNat - 1

/-- Inverse of `intEnc`. -/
def intDec (m : Nat) : Int :=
  if m % 2 = 0 then ((m / 2 : Nat) : Int) else -(((m + 1) / 2 : Nat) : Int)

mutual

/-- Modelled from the spec: `json.dumps(...).encode()` — the canonical,
reversible byte encoding of a structured value that the codec encrypts.
The concrete byte grammar is a tag-length-value rendering; the spec only
relies on it being canonical and reversible. -/
def jsonDumps : Json → List Nat
  | .null => [0]
  | .bool b => [1, cond b 1 0]
  | .int n => [2, intEnc n]
  | .str s => 3 :: strEnc s
  | .arr elems => 4 :: elems.length :: dumpsList elems
  | .obj fields => 5 :: fields.length :: dumpsFields fields

/-- Concatenated encodings of the elements of an array. -/
def dumpsList : List Json → List Nat
  | [] => []
  | j :: rest => jsonDumps j ++ dumpsList rest

/-- Concatenated encodings of the fields of an object. -/
def dumpsFields : List (String × Json) → List Nat
  | [] => []
  | (k, v) :: rest => strEnc k ++ jsonDumps v ++ dumpsFields rest

end

mutual

/-- Structural size of a JSON value, a fuel bound for the parser. -/
def jsonSize : Json → Nat
  | .null => 1
  | .bool _ => 1
  | .int _ => 1
  | .str _ => 1
  | .arr elems => 1 + sizeList elems
  | .obj fields => 1 + sizeFields fields

/-- Total size of a list of JSON values. -/
def sizeList : List Json → Nat
  | [] => 0
  | j :: rest => jsonSize j + sizeList rest

/-- Total size of an object field list. -/
def sizeFields : List (String × Json) → Nat
  | [] => 0
  | (_, v) :: rest => jsonSize v + sizeFields rest

end

/-- Take exactly `n` leading tokens, failing if fewer are available. -/
def takeN : Nat → List Nat → Option (List Nat × List Nat)
  | 0, bs => some ([], bs)
  | _ + 1, [] => none
  | n + 1, b :: bs => (takeN n bs).map (fun r => (b :: r.1, r.2))

/-- Decode a length-prefixed string, returning it with the remaining input. -/
def decodeStr : List Nat → Option (String × List Nat)
  | [] => none
  | n :: rest => (takeN n rest).map (fun r => (String.mk (r.1.map Char.ofNat), r.2))

mutual

/-- Modelled from the spec: `json.loads` — the inverse of the canonical
encoding, failing (as Python raises `ValueError`) on malformed input.
`fuel` bounds nesting depth; callers supply the input length. -/
def parseJson : Nat → List Nat → Option (Json × List Nat)
  | 0, _ => none
  | _ + 1, 0 :: rest => some (.null, rest)
  | _ + 1, 1 :: b :: rest => some (.bool (b == 1), rest)
  | _ + 1, 2 :: m :: rest => some (.int (intDec m), rest)
  | _ + 1, 3 :: rest => (decodeStr rest).map (fun r => (.str r.1, r.2))
  | fuel + 1, 4 :: n :: rest => (parseList fuel n rest).map (fun r => (.arr r.1, r.2))
  | fuel + 1, 5 :: n :: rest => (parseFields fuel n rest).map (fun r => (.obj r.1, r.2))
  | _ + 1, _ => none
termination_by fuel _ => (fuel, 0)

/-- Parse exactly `n` consecutive JSON values. -/
def parseList : Nat → Nat → List Nat → Option (List Json × List Nat)
  | _, 0, bs => some ([], bs)
  | fuel, n + 1, bs =>
    match parseJson fuel bs with
    | none => none
    | some (j, rest) =>
      match parseList fuel n rest with
      | none => none
      | some (js, rest2) => some (j :: js, rest2)
termination_by fuel n _ => (fuel, n + 1)

/-- Parse exactly `n` consecutive key/value fields. -/
def parseFields : Nat → Nat → List Nat → Option (List (String × Json) × List Nat)
  | _, 0, bs => some ([], bs)
  | fuel, n + 1, bs =>
    match decodeStr bs with
    | none => none
    | some (k, rest) =>
      match parseJson fuel rest with
      | none => none
      | some (v, rest2) =>
        match parseFields fuel n rest2 with
        | none => none
        | some (fs, rest3) => some ((k, v) :: fs, rest3)
termination_by fuel n _ => (fuel, n + 1)

end

/-- Python `json.loads` over a whole byte string: the entire input must be one value. -/
def jsonLoads (bs : List Nat) : Option Json :=
  match parseJson (bs.length + 1) bs with
  | some (j, []) => some j
  | _ => none

/-- Modelled from the spec: the HMAC integrity tag of the Fernet scheme
(`cryptography.fernet`). A fixed 32-byte tag computed from key and message;
the concrete compression is abstracted to a keyed mixing fold, which the
claims only rely on being a deterministic function of key and message. -/
def fernetMac (key msg : List Nat) : List Nat :=
  (List.range 32).map (fun i => (key ++ msg).foldl (fun a b => (a * 131 + b + 1) % 256) i)

/-- Modelled from the spec: `Fernet(key).encrypt` — symmetric authenticated
encryption producing a self-contained token: a version byte, the 16-byte
nonce/IV, the payload, and the 32-byte integrity tag, inseparably
concatenated. (The spec's claims never observe confidentiality, so the
payload masking of the real scheme is omitted; the nonce the library
samples internally is an explicit parameter.) -/
def fernetEncrypt (key nonce plaintext : List Nat) : List Nat :=
  128 :: ((nonce ++ List.replicate 16 0).take 16 ++
    (plaintext ++ fernetMac key ((nonce ++ List.replicate 16 0).take 16 ++ plaintext)))

/-- Modelled from the spec: `Fernet(key).decrypt` — rejects malformed tokens
and integrity-tag mismatches alike with a single failure outcome (`none`,
the embedding of a raised `InvalidToken`), never returning partial data. -/
def fernetDecrypt (key ct : List Nat) : Option (List Nat) :=
  match ct with
  | [] => none
  | version :: rest =>
    if version ≠ 128 ∨ rest.length < 48 then none
    else if (rest.drop 16).drop ((rest.drop 16).length - 32) =
        fernetMac key (rest.take 16 ++ (rest.drop 16).take ((rest.drop 16).length - 32)) then
      some ((rest.drop 16).take ((rest.drop 16).length - 32))
    else none

/-- Embedding of `EncryptionService.encrypt`: `json.dumps(data)` then `cipher.encrypt`. -/
def encryptJson (key nonce : List Nat) (data : Json) : List Nat :=
  fernetEncrypt key nonce (jsonDumps data)

/-- Embedding of `EncryptionService.decrypt`: `cipher.decrypt` then `json.loads`, with both
`InvalidToken` and `ValueError` caught and turned into `None`. -/
def decryptJson (key : List Nat) (encrypted_data : List Nat) : Option Json :=
  match fernetDecrypt key encrypted_data with
  | none => none
  | some pt => jsonLoads pt

/-- Decimal digit character of a value below ten. -/
def digitChar (d : Nat) : Char := "0123456789".data.getD d '0'

/-- Decimal digits of a natural number, most significant first. -/
def natDigits (n : Nat) : List Char :=
  if _ : n < 10 then [digitChar n]
  else natDigits (n / 10) ++ [digitChar (n % 10)]
termination_by n
decreasing_by
  exact Nat.div_lt_self (by omega) (by omega)

/-- Modelled from the spec: `datetime.isoformat()` — the ISO-8601 textual
rendering of a UTC timestamp embedded in records and metadata, abstracted
to the decimal rendering of the timestamp's seconds value (an injective,
parseable textual encoding, which is all the claims rely on). -/
def timeStr (t : Nat) : String := String.mk (natDigits t)

/-- Modelled from the spec: `str(now.timestamp())` — the textual POSIX
timestamp appended to the blob on collision retries. -/
def tsStr (t : Nat) : String := String.mk (natDigits t)

/-- Python `str.encode()`: the byte rendering of a string. -/
def strBytes (s : String) : List Nat := s.data.map Char.toNat

/-- Numeric value of a decimal digit character, else `none`. -/
def digitVal (c : Char) : Option Nat :=
  if 48 ≤ c.toNat ∧ c.toNat ≤ 57 then some (c.toNat - 48) else none

/-- Accumulating decimal parser over characters. -/
def parseTimeGo : Nat → List Char → Option Nat
  | acc, [] => some acc
  | acc, c :: cs =>
    match digitVal c with
    | some d => parseTimeGo (acc * 10 + d) cs
    | none => none

/-- Modelled from the spec: `datetime.fromisoformat` — parses the textual
timestamp back to a time value, raising (here `none`) on any malformed or
empty input. Inverse of `timeStr` on its image. -/
def parseTime (s : String) : Option Nat :=
  match s.data with
  | [] => none
  | cs => parseTimeGo 0 cs

/-- Modelled from the spec: `hashlib.sha256(...).digest()` — a fixed-size
256-bit (32-byte) digest of the input bytes. The compression function is
abstracted to a per-lane mixing fold; the claims rely only on the digest
being a deterministic, fixed-length function of the input. -/
def sha256Model (bs : List Nat) : List Nat :=
  (List.range 32).map (fun i => bs.foldl (fun acc b => (acc * 31 + b + i) % 256) ((i + 7) % 256))

/-- The URL-safe base64 alphabet: ASCII letters, digits, `-` and `_`. -/
def base64UrlAlphabet : List Char :=
  "ABCDEFGHIJKLMNOPQRSTUVWXYZabcdefghijklmnopqrstuvwxyz0123456789-_".data

/-- Character of a 6-bit group in the URL-safe base64 alphabet. -/
def b64Char (i : Nat) : Char := base64UrlAlphabet.getD (i % 64) 'A'

/-- Python `base64.urlsafe_b64encode`: standard base64 over the URL-safe alphabet,
with `=` padding, produced as a character list (the `.decode('utf-8')`). -/
def b64urlsafeEncode : List Nat → List Char
  | [] => []
  | [b1] => [b64Char (b1 / 4), b64Char (b1 % 4 * 16), '=', '=']
  | [b1, b2] => [b64Char (b1 / 4), b64Char (b1 % 4 * 16 + b2 / 16), b64Char (b2 % 16 * 4), '=']
  | b1 :: b2 :: b3 :: rest =>
    b64Char (b1 / 4) :: b64Char (b1 % 4 * 16 + b2 / 16) ::
      b64Char (b2 % 16 * 4 + b3 / 64) :: b64Char (b3 % 64) :: b64urlsafeEncode rest

/-- Python `.rstrip('=')` on a character list. -/
def rstripEq (cs : List Char) : List Char :=
  (cs.reverse.dropWhile (fun c => c == '=')).reverse

/-- Embedding of `HashingService.generate_short_code`: SHA-256 digest of the encrypted
bytes, truncated to the first `max_length` bytes, URL-safe base64 encoded
with padding stripped, truncated to `max_length` characters. -/
def generate_short_code (encrypted_data : List Nat) (max_length : Nat := 8) : String :=
  String.mk ((rstripEq (b64urlsafeEncode ((sha256Model encrypted_data).take max_length))).take
    max_length)

/-- The metadata dict stored next to the ciphertext (`LinkRepository.save`). -/
structure Metadata where
  encrypted_at : String
  expires_at : String

/-- One Redis value as written by `LinkRepository.save`: the ciphertext
(stored hex-encoded on the wire; held structurally here), the metadata,
and the TTL passed to `setex`. -/
structure StoredValue where
  encrypted_data : List Nat
  metadata : Metadata
  ttl_seconds : Nat

/-- Modelled from the spec: the TTL-capable key-value store (Redis),
as the association of live keys to values; `setex` overwrites. -/
abbrev Store := List (String × StoredValue)

/-- Redis `get`/`exists` key resolution: the current binding of a key. -/
def storeLookup : Store → String → Option StoredValue
  | [], _ => none
  | (k, v) :: rest, k2 => if k = k2 then some v else storeLookup rest k2

/-- Redis `setex`: (over)write a key; the newest binding shadows old ones. -/
def storeInsert (s : Store) (k : String) (v : StoredValue) : Store := (k, v) :: s

/-- The repository's configured expiry knobs (`LINK_EXPIRATION_HOURS` and
the unused `LINK_FINAL_EXPIRATION_HOURS`). -/
structure RepoConfig where
  expiration_hours : Nat
  final_expiration_hours : Nat

/-- Observable side effects of one `generate_link` call, in order. -/
inductive Effect where
  | encryptCall : Effect
  | existsCall (code : String) : Effect
  | putCall (code : String) (ttl : Nat) : Effect

/-- The short codes probed by the `exists` calls of an effect trace. -/
def existsCalls (effs : List Effect) : List String :=
  effs.filterMap (fun e => match e with | .existsCall c => some c | _ => none)

/-- Schema `LinkGenerateResponse` (schemas/link.py). -/
structure LinkGenerateResponse where
  short_code : String
  created_at : Nat
  expires_at : Nat

/-- Result of `LinkController.generate_link`: the 401 for a missing token,
the 500 after exhausted collision retries, or the success response.
(Encryption and save failures cannot occur in the embedding: the codec is
total and the store always accepts writes.) -/
inductive GenOutcome where
  | missingCredential : GenOutcome
  | identifierExhausted : GenOutcome
  | ok (resp : LinkGenerateResponse) : GenOutcome

/-- A `generate_link` call's outcome with its effect trace and the
resulting store state. -/
structure GenOutput where
  outcome : GenOutcome
  effects : List Effect
  store : Store

/-- Python `str.startswith`, character by character. -/
def beginsWith : List Char → List Char → Bool
  | [], _ => true
  | _ :: _, [] => false
  | p :: ps, c :: cs => p == c && beginsWith ps cs

/-- Token extraction from the Authorization header (generate_link lines
55-68): strip a `Bearer ` prefix; an absent or empty header, or an empty
stripped token, yields no credential. -/
def extractToken (authorization : Option String) : Option String :=
  match authorization with
  | none => none
  | some a =>
    if a = "" then none
    else
      if beginsWith "Bearer ".data a.data then
        if String.mk (a.data.drop 7) = "" then none else some (String.mk (a.data.drop 7))
      else some a

/-- The bytes the collision loop re-derives from (generate_link line 99):
the blob with the textual timestamp of the `now` captured before the loop
appended. Note: this does not depend on the attempt number. -/
def retryInput (encrypted_data : List Nat) (now : Nat) : List Nat :=
  encrypted_data ++ strBytes (tsStr now)

/-- The collision `while` loop of generate_link (lines 95-101):
`while exists(short_code) and attempt < 5`. `probe i` is the result of the
`i`-th `exists` call (the loop condition evaluates `exists` first, so one
probe happens per condition evaluation, including the final one).
Returns the final attempt counter, the final short code, and the codes
probed in order. -/
def loopGo (probe : Nat → Bool) (encrypted_data : List Nat) (now : Nat)
    (attempt : Nat) (code : String) : Nat × String × List String :=
  if h : probe attempt = true ∧ attempt < 5 then
    ((loopGo probe encrypted_data now (attempt + 1)
        (generate_short_code (retryInput encrypted_data now) 8)).1,
     (loopGo probe encrypted_data now (attempt + 1)
        (generate_short_code (retryInput encrypted_data now) 8)).2.1,
     code :: (loopGo probe encrypted_data now (attempt + 1)
        (generate_short_code (retryInput encrypted_data now) 8)).2.2)
  else (attempt, code, [code])
termination_by 5 - attempt
decreasing_by
  omega

/-- The `data_to_encrypt` dict of generate_link (lines 74-79): payload,
token, and both timestamps as textual renderings. -/
def genRecord (data : Json) (token : String) (now expires_at : Nat) : Json :=
  Json.obj
    [("data", data), ("token", .str token),
     ("encrypted_at", .str (timeStr now)), ("expires_at", .str (timeStr expires_at))]

/-- Embedding of `LinkController.generate_link`, composed with `LinkRepository.save`.
Inputs that Python draws from ambient state are explicit: `now`
(`datetime.utcnow()`), `key`/`nonce` (the process key and the nonce the
cipher samples), and `probe` (the store's answer to the `i`-th `exists`
call, as the collision tests force it). -/
def generateLink (cfg : RepoConfig) (authorization : Option String) (data : Json)
    (now : Nat) (key nonce : List Nat) (probe : Nat → Bool) (store : Store) : GenOutput :=
  match extractToken authorization with
  | none => ⟨.missingCredential, [], store⟩
  | some token =>
    let expires_at := now + cfg.expiration_hours * 3600
    let encrypted_data := encryptJson key nonce (genRecord data token now expires_at)
    let r := loopGo probe encrypted_data now 0 (generate_short_code encrypted_data 8)
    if r.1 ≥ 5 then
      ⟨.identifierExhausted, Effect.encryptCall :: r.2.2.map Effect.existsCall, store⟩
    else
      ⟨.ok ⟨r.2.1, now, expires_at⟩,
       (Effect.encryptCall :: r.2.2.map Effect.existsCall) ++
         [Effect.putCall r.2.1 (cfg.expiration_hours * 3600)],
       storeInsert store (String.append "link:" r.2.1)
         ⟨encrypted_data, ⟨timeStr now, timeStr expires_at⟩, cfg.expiration_hours * 3600⟩⟩

/-- Schema `LinkValidationResponse` (schemas/link.py): every field except `valid`
defaults to `None`. `data` and `token` carry whatever JSON values the
controller passes through from the decrypted record. -/
structure LinkValidationResponse where
  valid : Bool
  data : Option Json
  token : Option Json
  encrypted_at : Option Nat
  error : Option String

/-- The valid-response tail of validate_link (lines 174-186): parse the
optional `encrypted_at` and return the decrypted data and token. `none`
models an uncaught exception from `datetime.fromisoformat`. -/
def validTail (fields : List (String × Json)) : Option LinkValidationResponse :=
  match jsonGet fields "encrypted_at" with
  | some v =>
    if jsonTruthy v then
      match v with
      | .str s =>
        match parseTime s with
        | some t => some ⟨true, jsonGet fields "data", jsonGet fields "token", some t, none⟩
        | none => none
      | _ => none
    else some ⟨true, jsonGet fields "data", jsonGet fields "token", none, none⟩
  | none => some ⟨true, jsonGet fields "data", jsonGet fields "token", none, none⟩

/-- Embedding of `LinkController.validate_link`, composed with `LinkRepository.get`.
Returns `none` when an uncaught exception escapes (non-dict record, or a
truthy but unparseable/non-string timestamp); otherwise the
`LinkValidationResponse`. -/
def validateLink (key : List Nat) (store : Store) (now : Nat) (short_code : String) :
    Option LinkValidationResponse :=
  match storeLookup store (String.append "link:" short_code) with
  | none => some ⟨false, none, none, none, some "Link not found or expired"⟩
  | some sv =>
    match decryptJson key sv.encrypted_data with
    | none => some ⟨false, none, none, none, some "Link data is corrupted or invalid"⟩
    | some decrypted =>
      if jsonTruthy decrypted = false then
        some ⟨false, none, none, none, some "Link data is corrupted or invalid"⟩
      else
        match decrypted with
        | .obj fields =>
          match jsonGet fields "expires_at" with
          | some v =>
            if jsonTruthy v then
              match v with
              | .str s =>
                match parseTime s with
                | some t =>
                  if now > t then some ⟨false, none, none, none, some "Link has expired"⟩
                  else validTail fields
                | none => none
              | _ => none
            else validTail fields
          | none => validTail fields
        | _ => none

/-- A byte sequence is a valid ciphertext under `key` when authenticated
decryption followed by JSON parsing yields a record; tampered and
malformed blobs alike fall outside this predicate. -/
def validCiphertext (key blob : List Nat) : Prop := (decryptJson key blob).isSome

def c3Value : StoredValue :=
  ⟨encryptJson [7] [9] (Json.obj [("expires_at", Json.str (timeStr 5))]),
   ⟨timeStr 0, timeStr 5⟩, 3600⟩

def c3Store : Store := [("link:abc", c3Value)]

def c6Value : StoredValue := ⟨[0, 1, 2], ⟨"", ""⟩, 0⟩

def c6Store : Store := [("link:bad", c6Value)]

def c10Value : StoredValue := ⟨encryptJson [15] [16] (Json.obj []), ⟨"", ""⟩, 0⟩

def c10Store : Store := [("link:e", c10Value)]

def c2Blob : List Nat := encryptJson [3] [4] (genRecord (Json.obj []) "tok" 0 3600)

def c8Data : Json := Json.obj [("a", Json.int 1)]

def c8Resp : LinkGenerateResponse :=
  ⟨generate_short_code (encryptJson [5] [6] (genRecord c8Data "tok" 0 3600)) 8, 0, 3600⟩

def c9CexValue : StoredValue :=
  ⟨encryptJson [11] [12] (Json.obj [("encrypted_at", Json.int 1)]), ⟨"", ""⟩, 0⟩

def c9CexStore : Store := [("link:x", c9CexValue)]

def c9WitValue : StoredValue :=
  ⟨encryptJson [13] [14] (Json.obj [("token", Json.str "t")]), ⟨"", ""⟩, 0⟩

def c9WitStore : Store := [("link:y", c9WitValue)]

/-!
The theorems: general lemmas about the embedding, followed by the
verification of the spec's claims.
-/

theorem takeN_append (xs rest : List Nat) : takeN xs.length (xs ++ rest) = some (xs, rest) := by
  induction xs with
  | nil => rfl
  | cons x xs ih => simp [takeN, ih]

theorem decodeStr_strEnc (s : String) (rest : List Nat) :
    decodeStr (strEnc s ++ rest) = some (s, rest) := by
  have hlen : (s.data.map Char.toNat).length = s.data.length := by simp
  have htake := takeN_append (s.data.map Char.toNat) rest
  rw [hlen] at htake
  simp only [decodeStr, strEnc, List.cons_append, htake, Option.map_some']
  have hmap : (s.data.map Char.toNat).map Char.ofNat = s.data := by
    rw [List.map_map]
    have : s.data.map (Char.ofNat ∘ Char.toNat) = s.data.map id :=
      List.map_congr_left (fun c _ => Char.ofNat_toNat c)
    rw [this, List.map_id]
  rw [hmap]

theorem intDec_intEnc (n : Int) : intDec (intEnc n) = n := by
  unfold intEnc intDec
  by_cases h : 0 ≤ n
  · simp only [h, if_pos]
    have h2 : 2 * n.toNat % 2 = 0 := by omega
    simp only [h2, if_pos]
    omega
  · simp only [h, if_neg, if_false]
    have h1 : 1 ≤ (-n).toNat := by omega
    have h2 : (2 * (-n).toNat - 1) % 2 = 1 := by omega
    simp only [h2]
    norm_num
    omega

theorem jsonSize_pos (j : Json) : 1 ≤ jsonSize j := by
  cases j <;> simp [jsonSize]

theorem parseList_dumpsList (fuel : Nat)
    (IH : ∀ (j : Json) (rest : List Nat), jsonSize j ≤ fuel →
      parseJson fuel (jsonDumps j ++ rest) = some (j, rest)) :
    ∀ (elems : List Json) (rest : List Nat), sizeList elems ≤ fuel →
      parseList fuel elems.length (dumpsList elems ++ rest) = some (elems, rest) := by
  intro elems
  induction elems with
  | nil => intro rest _; simp [dumpsList, parseList]
  | cons j js ih =>
    intro rest hsz
    have hj : jsonSize j ≤ fuel := by
      have := jsonSize_pos j
      simp [sizeList] at hsz
      omega
    have hjs : sizeList js ≤ fuel := by
      have := jsonSize_pos j
      simp [sizeList] at hsz
      omega
    simp only [dumpsList, List.append_assoc, List.length_cons]
    rw [parseList, IH j _ hj]
    simp only [ih _ hjs]

theorem parseFields_dumpsFields (fuel : Nat)
    (IH : ∀ (j : Json) (rest : List Nat), jsonSize j ≤ fuel →
      parseJson fuel (jsonDumps j ++ rest) = some (j, rest)) :
    ∀ (fields : List (String × Json)) (rest : List Nat), sizeFields fields ≤ fuel →
      parseFields fuel fields.length (dumpsFields fields ++ rest) = some (fields, rest) := by
  intro fields
  induction fields with
  | nil => intro rest _; simp [dumpsFields, parseFields]
  | cons kv fs ih =>
    obtain ⟨k, v⟩ := kv
    intro rest hsz
    have hv : jsonSize v ≤ fuel := by
      have := jsonSize_pos v
      simp [sizeFields] at hsz
      omega
    have hfs : sizeFields fs ≤ fuel := by
      have := jsonSize_pos v
      simp [sizeFields] at hsz
      omega
    simp only [dumpsFields, List.append_assoc, List.length_cons]
    rw [parseFields, decodeStr_strEnc]
    simp only [IH v _ hv, ih _ hfs]

theorem parseJson_dumps (fuel : Nat) :
    ∀ (j : Json) (rest : List Nat), jsonSize j ≤ fuel →
      parseJson fuel (jsonDumps j ++ rest) = some (j, rest) := by
  induction fuel with
  | zero =>
    intro j rest hsz
    have := jsonSize_pos j
    omega
  | succ fuel ih =>
    intro j rest hsz
    cases j with
    | null => simp [jsonDumps, parseJson]
    | bool b => cases b <;> simp [jsonDumps, parseJson]
    | int n => simp [jsonDumps, parseJson, intDec_intEnc]
    | str s => simp [jsonDumps, parseJson, decodeStr_strEnc]
    | arr elems =>
      have hsz2 : sizeList elems ≤ fuel := by
        simp [jsonSize] at hsz
        omega
      simp only [jsonDumps, List.cons_append, List.append_assoc]
      rw [parseJson, parseList_dumpsList fuel ih elems rest hsz2]
      rfl
    | obj fields =>
      have hsz2 : sizeFields fields ≤ fuel := by
        simp [jsonSize] at hsz
        omega
      simp only [jsonDumps, List.cons_append, List.append_assoc]
      rw [parseJson, parseFields_dumpsFields fuel ih fields rest hsz2]
      rfl

theorem jsonSize_le_dumps_length :
    ∀ j : Json, jsonSize j ≤ (jsonDumps j).length := by
  have key : ∀ n : Nat, ∀ j : Json, jsonSize j ≤ n → jsonSize j ≤ (jsonDumps j).length := by
    intro n
    induction n with
    | zero =>
      intro j h
      have := jsonSize_pos j
      omega
    | succ n ih =>
      intro j hsz
      cases j with
      | null => simp [jsonSize, jsonDumps]
      | bool b => simp [jsonSize, jsonDumps]
      | int m => simp [jsonSize, jsonDumps]
      | str s => simp [jsonSize, jsonDumps, strEnc]
      | arr elems =>
        have hlist : sizeList elems ≤ (dumpsList elems).length := by
          have hbound : sizeList elems ≤ n := by simp [jsonSize] at hsz; omega
          clear hsz
          induction elems with
          | nil => simp [sizeList, dumpsList]
          | cons j js ihl =>
            simp [sizeList, dumpsList] at hbound ⊢
            have h1 : jsonSize j ≤ (jsonDumps j).length := by
              apply ih
              have := jsonSize_pos j
              omega
            have h2 : sizeList js ≤ (dumpsList js).length := by
              apply ihl
              have := jsonSize_pos j
              omega
            omega
        simp [jsonSize, jsonDumps]
        omega
      | obj fields =>
        have hlist : sizeFields fields ≤ (dumpsFields fields).length := by
          have hbound : sizeFields fields ≤ n := by simp [jsonSize] at hsz; omega
          clear hsz
          induction fields with
          | nil => simp [sizeFields, dumpsFields]
          | cons kv fs ihl =>
            obtain ⟨k, v⟩ := kv
            simp [sizeFields, dumpsFields] at hbound ⊢
            have h1 : jsonSize v ≤ (jsonDumps v).length := by
              apply ih
              have := jsonSize_pos v
              omega
            have h2 : sizeFields fs ≤ (dumpsFields fs).length := by
              apply ihl
              have := jsonSize_pos v
              omega
            omega
        simp [jsonSize, jsonDumps]
        omega
  intro j
  exact key (jsonSize j) j (Nat.le_refl _)

theorem jsonLoads_jsonDumps (j : Json) : jsonLoads (jsonDumps j) = some j := by
  unfold jsonLoads
  have hfuel : jsonSize j ≤ (jsonDumps j).length + 1 := by
    have := jsonSize_le_dumps_length j
    omega
  have := parseJson_dumps ((jsonDumps j).length + 1) j [] hfuel
  rw [List.append_nil] at this
  rw [this]

theorem fernetMac_length (key msg : List Nat) : (fernetMac key msg).length = 32 := by
  simp [fernetMac]

theorem fernetDecrypt_token (key n16 pt : List Nat) (h16 : n16.length = 16) :
    fernetDecrypt key (128 :: (n16 ++ (pt ++ fernetMac key (n16 ++ pt)))) = some pt := by
  have hmac := fernetMac_length key (n16 ++ pt)
  have hlen : (n16 ++ (pt ++ fernetMac key (n16 ++ pt))).length = 48 + pt.length := by
    simp [h16, hmac]
    omega
  have htake : (n16 ++ (pt ++ fernetMac key (n16 ++ pt))).take 16 = n16 := by
    rw [← h16, List.take_left]
  have hdrop : (n16 ++ (pt ++ fernetMac key (n16 ++ pt))).drop 16 =
      pt ++ fernetMac key (n16 ++ pt) := by
    rw [← h16, List.drop_left]
  have hlen2 : (pt ++ fernetMac key (n16 ++ pt)).length - 32 = pt.length := by
    simp [hmac]
  have htake2 : (pt ++ fernetMac key (n16 ++ pt)).take pt.length = pt := List.take_left _ _
  have hdrop2 : (pt ++ fernetMac key (n16 ++ pt)).drop pt.length = fernetMac key (n16 ++ pt) :=
    List.drop_left _ _
  simp only [fernetDecrypt, hlen, htake, hdrop, hlen2, htake2, hdrop2]
  simp

theorem fernetDecrypt_fernetEncrypt (key nonce plaintext : List Nat) :
    fernetDecrypt key (fernetEncrypt key nonce plaintext) = some plaintext := by
  have h16 : ((nonce ++ List.replicate 16 0).take 16).length = 16 := by simp
  unfold fernetEncrypt
  exact fernetDecrypt_token key _ plaintext h16

theorem decryptJson_encryptJson (key nonce : List Nat) (data : Json) :
    decryptJson key (encryptJson key nonce data) = some data := by
  unfold decryptJson encryptJson
  rw [fernetDecrypt_fernetEncrypt]
  exact jsonLoads_jsonDumps data

theorem parseTimeGo_append (xs ys : List Char) :
    ∀ acc : Nat, parseTimeGo acc (xs ++ ys) =
      match parseTimeGo acc xs with
      | some a => parseTimeGo a ys
      | none => none := by
  induction xs with
  | nil => intro acc; rfl
  | cons c cs ih =>
    intro acc
    simp only [List.cons_append, parseTimeGo]
    cases digitVal c with
    | none => rfl
    | some d => exact ih _

theorem digitVal_digitChar : ∀ d : Nat, d < 10 → digitVal (digitChar d) = some d := by
  decide

theorem parseTimeGo_natDigits (n : Nat) :
    ∀ acc : Nat, parseTimeGo acc (natDigits n) =
      some (acc * 10 ^ (natDigits n).length + n) := by
  induction n using Nat.strong_induction_on with
  | _ n ih =>
    intro acc
    by_cases h : n < 10
    · rw [natDigits]
      simp only [h, dif_pos]
      simp only [parseTimeGo, digitVal_digitChar n h]
      simp [parseTimeGo]
    · rw [natDigits]
      simp only [h, dif_neg, not_false_iff]
      rw [parseTimeGo_append]
      rw [ih (n / 10) (Nat.div_lt_self (by omega) (by omega))]
      have hd : n % 10 < 10 := Nat.mod_lt _ (by omega)
      simp only [parseTimeGo, digitVal_digitChar _ hd]
      simp [parseTimeGo, List.length_append]
      ring_nf
      have : (acc * 10 ^ (natDigits (n / 10)).length + n / 10) * 10 + n % 10 =
          acc * (10 ^ (natDigits (n / 10)).length * 10) + n := by
        have := Nat.div_add_mod n 10
        ring_nf
        omega
      omega

theorem natDigits_ne_nil (n : Nat) : natDigits n ≠ [] := by
  rw [natDigits]
  split <;> simp

theorem timeStr_ne_empty (t : Nat) : timeStr t ≠ "" := by
  intro h
  apply natDigits_ne_nil t
  have : (timeStr t).data = ("" : String).data := by rw [h]
  simpa [timeStr] using this

theorem parseTime_timeStr (t : Nat) : parseTime (timeStr t) = some t := by
  unfold parseTime timeStr
  have hne := natDigits_ne_nil t
  obtain ⟨c, cs, hcs⟩ : ∃ c cs, natDigits t = c :: cs := by
    cases h : natDigits t with
    | nil => exact absurd h hne
    | cons c cs => exact ⟨c, cs, rfl⟩
  simp only [hcs]
  have := parseTimeGo_natDigits t 0
  rw [hcs] at this
  simpa using this

theorem b64Char_mem : ∀ i : Nat, b64Char i ∈ base64UrlAlphabet := by
  intro i
  have h : i % 64 < base64UrlAlphabet.length := by
    have : base64UrlAlphabet.length = 64 := by decide
    omega
  rw [b64Char, base64UrlAlphabet.getD_eq_getElem 'A' h]
  exact base64UrlAlphabet.getElem_mem h

theorem b64Char_ne_eq (i : Nat) : (b64Char i == '=') = false := by
  have hlt : i % 64 < 64 := by omega
  have key : ∀ m : Nat, m < 64 → (base64UrlAlphabet.getD m 'A' == '=') = false := by decide
  exact key (i % 64) hlt

theorem short_code_unfold (encrypted_data : List Nat) :
    generate_short_code encrypted_data 8 =
      String.mk (b64urlsafeEncode ((sha256Model encrypted_data).take 6)) ∧
    (generate_short_code encrypted_data 8).data.length = 8 := by
  have htake8 : (sha256Model encrypted_data).take 8 =
      ((List.range 32).take 8).map
        (fun i => encrypted_data.foldl (fun acc b => (acc * 31 + b + i) % 256) ((i + 7) % 256)) := by
    rw [sha256Model, ← List.map_take]
  have htake6 : (sha256Model encrypted_data).take 6 =
      ((List.range 32).take 6).map
        (fun i => encrypted_data.foldl (fun acc b => (acc * 31 + b + i) % 256) ((i + 7) % 256)) := by
    rw [sha256Model, ← List.map_take]
  have hr8 : (List.range 32).take 8 = [0, 1, 2, 3, 4, 5, 6, 7] := by decide
  have hr6 : (List.range 32).take 6 = [0, 1, 2, 3, 4, 5] := by decide
  rw [hr8] at htake8
  rw [hr6] at htake6
  simp only [List.map_cons, List.map_nil] at htake8 htake6
  constructor
  · rw [generate_short_code, htake8, htake6]
    simp only [b64urlsafeEncode, rstripEq, List.reverse_cons, List.reverse_nil,
      List.nil_append, List.cons_append]
    rw [List.dropWhile_cons]
    simp only [beq_self_eq_true, if_true, List.dropWhile_cons, b64Char_ne_eq, if_false]
    simp [List.take]
  · rw [generate_short_code, htake8]
    simp only [b64urlsafeEncode, rstripEq, List.reverse_cons, List.reverse_nil,
      List.nil_append, List.cons_append]
    rw [List.dropWhile_cons]
    simp only [beq_self_eq_true, if_true, List.dropWhile_cons, b64Char_ne_eq, if_false]
    simp [List.take]

theorem loopGo_exit (probe : Nat → Bool) (e : List Nat) (now a : Nat) (c : String)
    (h : ¬(probe a = true ∧ a < 5)) : loopGo probe e now a c = (a, c, [c]) := by
  rw [loopGo, dif_neg h]

theorem loopGo_step (probe : Nat → Bool) (e : List Nat) (now a : Nat) (c : String)
    (hp : probe a = true) (ha : a < 5) :
    loopGo probe e now a c =
      ((loopGo probe e now (a + 1) (generate_short_code (retryInput e now) 8)).1,
       (loopGo probe e now (a + 1) (generate_short_code (retryInput e now) 8)).2.1,
       c :: (loopGo probe e now (a + 1) (generate_short_code (retryInput e now) 8)).2.2) := by
  rw [loopGo, dif_pos ⟨hp, ha⟩]

theorem loopGo_run (probe : Nat → Bool) (e : List Nat) (now : Nat) :
    ∀ (k a : Nat) (c : String), a + k ≤ 5 →
      (∀ i, i < k → probe (a + i) = true) → probe (a + k) = false →
      loopGo probe e now a c =
        (a + k,
         if k = 0 then c else generate_short_code (retryInput e now) 8,
         c :: List.replicate k (generate_short_code (retryInput e now) 8)) := by
  intro k
  induction k with
  | zero =>
    intro a c _ _ hf
    rw [loopGo_exit]
    · simp
    · intro hcontra
      rw [Nat.add_zero] at hf
      rw [hf] at hcontra
      exact Bool.false_ne_true hcontra.1
  | succ k ih =>
    intro a c hle htr hf
    have h0 : probe a = true := by
      have := htr 0 (by omega)
      simpa using this
    rw [loopGo_step probe e now a c h0 (by omega)]
    have htr2 : ∀ i, i < k → probe (a + 1 + i) = true := by
      intro i hi
      have := htr (i + 1) (by omega)
      have heq : a + (i + 1) = a + 1 + i := by omega
      rwa [heq] at this
    have hf2 : probe (a + 1 + k) = false := by
      have heq : a + (k + 1) = a + 1 + k := by omega
      rwa [heq] at hf
    rw [ih (a + 1) (generate_short_code (retryInput e now) 8) (by omega) htr2 hf2]
    have heq : a + 1 + k = a + (k + 1) := by omega
    simp only [heq, List.replicate_succ]
    by_cases hk : k = 0 <;> simp [hk]

theorem loopGo_exhaust (probe : Nat → Bool) (e : List Nat) (now : Nat)
    (hp : ∀ i, i < 5 → probe i = true) :
    ∀ (a : Nat) (c : String), a ≤ 5 → (loopGo probe e now a c).1 = 5 := by
  have key : ∀ (m a : Nat) (c : String), 5 - a ≤ m → a ≤ 5 → (loopGo probe e now a c).1 = 5 := by
    intro m
    induction m with
    | zero =>
      intro a c hm ha
      have h5 : a = 5 := by omega
      subst h5
      rw [loopGo_exit]
      intro hcontra
      omega
    | succ m ih =>
      intro a c hm ha
      by_cases h5 : a < 5
      · rw [loopGo_step probe e now a c (hp a h5) h5]
        exact ih (a + 1) _ (by omega) (by omega)
      · have heq : a = 5 := by omega
        subst heq
        rw [loopGo_exit]
        intro hcontra
        omega
  intro a c ha
  exact key (5 - a) a c (Nat.le_refl _) ha

theorem storeLookup_insert_self (s : Store) (k : String) (v : StoredValue) :
    storeLookup (storeInsert s k v) k = some v := by
  simp [storeInsert, storeLookup]

/-- C5: decrypting the encryption of any structured record returns exactly
that record, with keys, nesting and scalar types preserved. -/
theorem encrypt_decrypt_roundtrip (key nonce : List Nat) (record : Json) :
    decryptJson key (encryptJson key nonce record) = some record :=
  decryptJson_encryptJson key nonce record

/-- C4: with an absent or empty credential, generate fails with the
missing-credential (401) outcome, performs no encryption and no store
operation, and leaves the store unchanged. -/
theorem generate_missing_credential (cfg : RepoConfig) (authorization : Option String)
    (data : Json) (now : Nat) (key nonce : List Nat) (probe : Nat → Bool) (store : Store)
    (hauth : authorization = none ∨ authorization = some "") :
    generateLink cfg authorization data now key nonce probe store =
      ⟨GenOutcome.missingCredential, [], store⟩ := by
  rcases hauth with h | h <;> subst h <;> rfl

theorem generate_missing_credential_witness :
    generateLink ⟨1, 2⟩ none (Json.obj []) 0 [1] [2] (fun _ => false) [] =
      ⟨GenOutcome.missingCredential, [], []⟩ :=
  generate_missing_credential ⟨1, 2⟩ none (Json.obj []) 0 [1] [2] (fun _ => false) []
    (Or.inl rfl)

/-- C3: a stored, decryptable record whose embedded expires_at is strictly
in the past yields valid=false with the expired error. -/
theorem validate_expired (key : List Nat) (store : Store) (now : Nat) (code : String)
    (sv : StoredValue) (fields : List (String × Json)) (s : String) (t : Nat)
    (hget : storeLookup store (String.append "link:" code) = some sv)
    (hdec : decryptJson key sv.encrypted_data = some (Json.obj fields))
    (hexp : jsonGet fields "expires_at" = some (Json.str s))
    (hs : s ≠ "")
    (hparse : parseTime s = some t)
    (hlt : t < now) :
    validateLink key store now code =
      some ⟨false, none, none, none, some "Link has expired"⟩ := by
  have hne : fields ≠ [] := by
    intro hnil
    rw [hnil] at hexp
    simp [jsonGet] at hexp
  have htr : jsonTruthy (Json.obj fields) = true := by
    simp [jsonTruthy, List.isEmpty_iff, hne]
  have hstr : jsonTruthy (Json.str s) = true := by
    simp [jsonTruthy, hs]
  simp only [validateLink, hget, hdec, htr, hexp, hstr, hparse]
  simp [hlt]

theorem validate_expired_witness :
    validateLink [7] c3Store 6 "abc" =
      some ⟨false, none, none, none, some "Link has expired"⟩ :=
  validate_expired [7] c3Store 6 "abc" c3Value
    [("expires_at", Json.str (timeStr 5))] (timeStr 5) 5
    rfl (decryptJson_encryptJson [7] [9] _) rfl (timeStr_ne_empty 5)
    (parseTime_timeStr 5) (by omega)

/-- C6: every blob that is not a valid ciphertext under the process key —
tampered or malformed alike — makes decrypt return the single failure
outcome with no data, and validate maps it to valid=false with the
corrupted-or-invalid error. -/
theorem validate_invalid_ciphertext (key : List Nat) (store : Store) (now : Nat)
    (code : String) (sv : StoredValue)
    (hget : storeLookup store (String.append "link:" code) = some sv)
    (hbad : ¬ validCiphertext key sv.encrypted_data) :
    decryptJson key sv.encrypted_data = none ∧
    validateLink key store now code =
      some ⟨false, none, none, none, some "Link data is corrupted or invalid"⟩ := by
  have hnone : decryptJson key sv.encrypted_data = none := by
    cases h : decryptJson key sv.encrypted_data with
    | none => rfl
    | some j => exact absurd (by simp [validCiphertext, h]) hbad
  refine ⟨hnone, ?_⟩
  simp only [validateLink, hget, hnone]

theorem validate_invalid_ciphertext_witness :
    decryptJson [7] c6Value.encrypted_data = none ∧
    validateLink [7] c6Store 0 "bad" =
      some ⟨false, none, none, none, some "Link data is corrupted or invalid"⟩ :=
  validate_invalid_ciphertext [7] c6Store 0 "bad" c6Value rfl
    (by unfold validCiphertext; decide)

/-- C10: a blob that decrypts successfully to the empty record is reported
exactly as a decryption failure: valid=false with the corrupted-or-invalid
error, because the falsy-result check cannot tell the two apart. -/
theorem validate_empty_record (key : List Nat) (store : Store) (now : Nat)
    (code : String) (sv : StoredValue)
    (hget : storeLookup store (String.append "link:" code) = some sv)
    (hdec : decryptJson key sv.encrypted_data = some (Json.obj [])) :
    validateLink key store now code =
      some ⟨false, none, none, none, some "Link data is corrupted or invalid"⟩ := by
  simp only [validateLink, hget, hdec]
  simp [jsonTruthy]

theorem validate_empty_record_witness :
    validateLink [15] c10Store 0 "e" =
      some ⟨false, none, none, none, some "Link data is corrupted or invalid"⟩ :=
  validate_empty_record [15] c10Store 0 "e" c10Value rfl
    (decryptJson_encryptJson [15] [16] _)

theorem existsCalls_cons_enc (l : List Effect) :
    existsCalls (Effect.encryptCall :: l) = existsCalls l := by
  simp [existsCalls, List.filterMap_cons]

theorem existsCalls_cons_probe (c : String) (l : List Effect) :
    existsCalls (Effect.existsCall c :: l) = c :: existsCalls l := by
  simp [existsCalls, List.filterMap_cons]

theorem existsCalls_append (l1 l2 : List Effect) :
    existsCalls (l1 ++ l2) = existsCalls l1 ++ existsCalls l2 := by
  simp [existsCalls, List.filterMap_append]

theorem existsCalls_put (c : String) (ttl : Nat) :
    existsCalls [Effect.putCall c ttl] = [] := by
  simp [existsCalls, List.filterMap_cons, List.filterMap_nil]

theorem existsCalls_map (codes : List String) :
    existsCalls (List.map Effect.existsCall codes) = codes := by
  induction codes with
  | nil => rfl
  | cons c cs ih => rw [List.map_cons, existsCalls_cons_probe, ih]

theorem existsCalls_enc_map (codes : List String) :
    existsCalls (Effect.encryptCall :: List.map Effect.existsCall codes) = codes := by
  rw [existsCalls_cons_enc, existsCalls_map]

theorem existsCalls_enc_map_put (codes : List String) (c : String) (ttl : Nat) :
    existsCalls ((Effect.encryptCall :: List.map Effect.existsCall codes) ++
      [Effect.putCall c ttl]) = codes := by
  rw [existsCalls_append, existsCalls_cons_enc, existsCalls_map, existsCalls_put,
    List.append_nil]

theorem loopGo_all_collide (probe : Nat → Bool) (e : List Nat) (now : Nat)
    (hp : ∀ i, i < 5 → probe i = true) (c : String) :
    loopGo probe e now 0 c =
      (5, generate_short_code (retryInput e now) 8,
       c :: List.replicate 5 (generate_short_code (retryInput e now) 8)) := by
  rw [loopGo_step probe e now 0 c (hp 0 (by omega)) (by omega)]
  rw [loopGo_step probe e now 1 _ (hp 1 (by omega)) (by omega)]
  rw [loopGo_step probe e now 2 _ (hp 2 (by omega)) (by omega)]
  rw [loopGo_step probe e now 3 _ (hp 3 (by omega)) (by omega)]
  rw [loopGo_step probe e now 4 _ (hp 4 (by omega)) (by omega)]
  rw [loopGo_exit probe e now 5 _ (by intro h; exact Nat.lt_irrefl 5 h.2)]
  simp [List.replicate]

theorem generateLink_exhausted (cfg : RepoConfig) (authorization : Option String)
    (data : Json) (now : Nat) (key nonce : List Nat) (probe : Nat → Bool) (store : Store)
    (token : String) (htok : extractToken authorization = some token)
    (hp : ∀ i, i < 5 → probe i = true) :
    generateLink cfg authorization data now key nonce probe store =
      ⟨GenOutcome.identifierExhausted,
       Effect.encryptCall ::
         List.map Effect.existsCall
           (generate_short_code (encryptJson key nonce
              (genRecord data token now (now + cfg.expiration_hours * 3600))) 8 ::
            List.replicate 5 (generate_short_code (retryInput (encryptJson key nonce
              (genRecord data token now (now + cfg.expiration_hours * 3600))) now) 8)),
       store⟩ := by
  simp only [generateLink, htok]
  rw [loopGo_all_collide probe _ now hp]
  simp

theorem generateLink_success (cfg : RepoConfig) (authorization : Option String)
    (data : Json) (now : Nat) (key nonce : List Nat) (probe : Nat → Bool) (store : Store)
    (token : String) (N : Nat) (htok : extractToken authorization = some token)
    (hN : N ≤ 4) (htr : ∀ i, i < N → probe i = true) (hf : probe N = false) :
    generateLink cfg authorization data now key nonce probe store =
      ⟨GenOutcome.ok
        ⟨(if N = 0 then
            generate_short_code (encryptJson key nonce
              (genRecord data token now (now + cfg.expiration_hours * 3600))) 8
          else
            generate_short_code (retryInput (encryptJson key nonce
              (genRecord data token now (now + cfg.expiration_hours * 3600))) now) 8),
         now, now + cfg.expiration_hours * 3600⟩,
       (Effect.encryptCall ::
         List.map Effect.existsCall
           (generate_short_code (encryptJson key nonce
              (genRecord data token now (now + cfg.expiration_hours * 3600))) 8 ::
            List.replicate N (generate_short_code (retryInput (encryptJson key nonce
              (genRecord data token now (now + cfg.expiration_hours * 3600))) now) 8))) ++
         [Effect.putCall
           (if N = 0 then
              generate_short_code (encryptJson key nonce
                (genRecord data token now (now + cfg.expiration_hours * 3600))) 8
            else
              generate_short_code (retryInput (encryptJson key nonce
                (genRecord data token now (now + cfg.expiration_hours * 3600))) now) 8)
           (cfg.expiration_hours * 3600)],
       storeInsert store
         (String.append "link:"
           (if N = 0 then
              generate_short_code (encryptJson key nonce
                (genRecord data token now (now + cfg.expiration_hours * 3600))) 8
            else
              generate_short_code (retryInput (encryptJson key nonce
                (genRecord data token now (now + cfg.expiration_hours * 3600))) now) 8))
         ⟨encryptJson key nonce (genRecord data token now (now + cfg.expiration_hours * 3600)),
          ⟨timeStr now, timeStr (now + cfg.expiration_hours * 3600)⟩,
          cfg.expiration_hours * 3600⟩⟩ := by
  have hrun := loopGo_run probe
    (encryptJson key nonce (genRecord data token now (now + cfg.expiration_hours * 3600))) now
    N 0
    (generate_short_code (encryptJson key nonce
      (genRecord data token now (now + cfg.expiration_hours * 3600))) 8)
    (by omega) (by intro i hi; simpa using htr i hi) (by simpa using hf)
  simp only [Nat.zero_add] at hrun
  simp only [generateLink, htok]
  rw [hrun]
  have hlt : ¬ (N ≥ 5) := by omega
  simp [hlt]

/-- C1 (amended): if one of the first five existence checks reports no
collision (the first N ≤ 4 collide, check N is free), generate succeeds
and the last exists probe — the one that returned false — was made on the
returned code; but when the first five checks all report collisions,
generate fails with IdentifierExhausted even though a sixth check is
issued (whose result is ignored). -/
theorem generate_collision_policy (cfg : RepoConfig) (authorization : Option String)
    (data : Json) (now : Nat) (key nonce : List Nat) (probe : Nat → Bool) (store : Store)
    (token : String) (htok : extractToken authorization = some token) :
    (∀ N : Nat, N ≤ 4 → (∀ i, i < N → probe i = true) → probe N = false →
      ∃ resp : LinkGenerateResponse,
        (generateLink cfg authorization data now key nonce probe store).outcome =
          GenOutcome.ok resp ∧
        (existsCalls
          (generateLink cfg authorization data now key nonce probe store).effects).length =
          N + 1 ∧
        (existsCalls
          (generateLink cfg authorization data now key nonce probe store).effects)[N]? =
          some resp.short_code) ∧
    ((∀ i, i < 5 → probe i = true) →
      (generateLink cfg authorization data now key nonce probe store).outcome =
        GenOutcome.identifierExhausted) := by
  constructor
  · intro N hN htr hf
    rw [generateLink_success cfg authorization data now key nonce probe store token N htok
      hN htr hf]
    refine ⟨_, rfl, ?_, ?_⟩
    · rw [existsCalls_enc_map_put]
      simp
    · rw [existsCalls_enc_map_put]
      cases N with
      | zero => simp
      | succ m =>
        rw [List.getElem?_cons_succ, List.getElem?_replicate]
        simp
  · intro hp
    rw [generateLink_exhausted cfg authorization data now key nonce probe store token htok hp]

theorem generate_collision_policy_witness :
    (∀ N : Nat, N ≤ 4 → (∀ i, i < N → (fun _ : Nat => false) i = true) →
      (fun _ : Nat => false) N = false →
      ∃ resp : LinkGenerateResponse,
        (generateLink ⟨1, 2⟩ (some "tok") (Json.obj []) 0 [3] [4]
          (fun _ => false) []).outcome = GenOutcome.ok resp ∧
        (existsCalls (generateLink ⟨1, 2⟩ (some "tok") (Json.obj []) 0 [3] [4]
          (fun _ => false) []).effects).length = N + 1 ∧
        (existsCalls (generateLink ⟨1, 2⟩ (some "tok") (Json.obj []) 0 [3] [4]
          (fun _ => false) []).effects)[N]? = some resp.short_code) ∧
    ((∀ i, i < 5 → (fun _ : Nat => false) i = true) →
      (generateLink ⟨1, 2⟩ (some "tok") (Json.obj []) 0 [3] [4]
        (fun _ => false) []).outcome = GenOutcome.identifierExhausted) :=
  generate_collision_policy ⟨1, 2⟩ (some "tok") (Json.obj []) 0 [3] [4] (fun _ => false) []
    "tok" rfl

/-- C1 as stated is refuted: with exactly the first five existence checks
colliding (N = 5, which the claim allows) and every later check free,
generate does not succeed — it fails with IdentifierExhausted although its
sixth existence check reported no collision. -/
theorem generate_collision_policy_counterexample :
    (generateLink ⟨1, 2⟩ (some "tok") (Json.obj []) 0 [3] [4]
      (fun i => decide (i < 5)) []).outcome = GenOutcome.identifierExhausted := by
  rw [generateLink_exhausted ⟨1, 2⟩ (some "tok") (Json.obj []) 0 [3] [4]
    (fun i => decide (i < 5)) [] "tok" rfl (by decide)]

/-- C2 is contradicted by the code: `now` is captured once before the loop,
so every retry attempt re-derives from the identical byte string
`blob ++ str(now.timestamp())`. In a run where every existence check
collides, the five retry probes all carry one and the same re-derived
code (the trace is the original code followed by five copies). -/
theorem generate_retry_input_constant :
    retryInput c2Blob 0 = c2Blob ++ strBytes (tsStr 0) ∧
    existsCalls (generateLink ⟨1, 2⟩ (some "tok") (Json.obj []) 0 [3] [4]
        (fun _ => true) []).effects =
      generate_short_code c2Blob 8 ::
        List.replicate 5 (generate_short_code (retryInput c2Blob 0) 8) ∧
    (generateLink ⟨1, 2⟩ (some "tok") (Json.obj []) 0 [3] [4]
      (fun _ => true) []).outcome = GenOutcome.identifierExhausted := by
  refine ⟨rfl, ?_, ?_⟩
  · rw [generateLink_exhausted ⟨1, 2⟩ (some "tok") (Json.obj []) 0 [3] [4]
      (fun _ => true) [] "tok" rfl (fun _ _ => rfl)]
    rw [existsCalls_enc_map]
    rfl
  · rw [generateLink_exhausted ⟨1, 2⟩ (some "tok") (Json.obj []) 0 [3] [4]
      (fun _ => true) [] "tok" rfl (fun _ _ => rfl)]

/-- C7: the derived short code equals the URL-safe base64 encoding of a
prefix of the SHA-256 digest of the input (concretely the padding-free
encoding of its first 6 bytes), has length 8 ≤ 8, and uses only characters
of the URL-safe alphabet — in particular no `=` padding; being a function,
it is deterministic in the input bytes. -/
theorem short_code_spec (encrypted_data : List Nat) :
    generate_short_code encrypted_data 8 =
      String.mk (b64urlsafeEncode ((sha256Model encrypted_data).take 6)) ∧
    (generate_short_code encrypted_data 8).data.length ≤ 8 ∧
    (∀ c, c ∈ (generate_short_code encrypted_data 8).data → c ∈ base64UrlAlphabet) ∧
    '=' ∉ (generate_short_code encrypted_data 8).data := by
  obtain ⟨heq, hlen⟩ := short_code_unfold encrypted_data
  have hmem : ∀ c, c ∈ (generate_short_code encrypted_data 8).data → c ∈ base64UrlAlphabet := by
    rw [heq]
    have htake6 : (sha256Model encrypted_data).take 6 =
        ((List.range 32).take 6).map
          (fun i => encrypted_data.foldl (fun acc b => (acc * 31 + b + i) % 256)
            ((i + 7) % 256)) := by
      rw [sha256Model, ← List.map_take]
    have hr6 : (List.range 32).take 6 = [0, 1, 2, 3, 4, 5] := by decide
    rw [hr6] at htake6
    simp only [List.map_cons, List.map_nil] at htake6
    rw [htake6]
    simp only [b64urlsafeEncode]
    intro c hc
    simp only [List.mem_cons, List.not_mem_nil, or_false] at hc
    rcases hc with h | h | h | h | h | h | h | h <;> subst h <;> exact b64Char_mem _
  refine ⟨heq, by omega, hmem, ?_⟩
  intro hin
  have := hmem '=' hin
  have habs : ('=' ∈ base64UrlAlphabet) = False := by decide
  rw [habs] at this
  exact this

theorem short_code_spec_witness :
    (generate_short_code [0] 8).data.length ≤ 8 :=
  (short_code_spec [0]).2.1

/-- C8: every successful generate call returns created_at = now and
expires_at = created_at + expiration_hours·3600; the store then maps the
returned code to an entry whose decrypted record embeds exactly those two
textual timestamps, whose metadata carries the same strings, and whose TTL
is exactly expiration_hours · 3600 seconds — the base expiration knob, for
every configuration of the distinct final_expiration_hours knob. -/
theorem generate_success_invariants (cfg : RepoConfig) (authorization : Option String)
    (data : Json) (now : Nat) (key nonce : List Nat) (probe : Nat → Bool) (store : Store)
    (resp : LinkGenerateResponse)
    (hok : (generateLink cfg authorization data now key nonce probe store).outcome =
      GenOutcome.ok resp) :
    resp.created_at = now ∧
    resp.expires_at = resp.created_at + cfg.expiration_hours * 3600 ∧
    ∃ (token : String) (sv : StoredValue),
      extractToken authorization = some token ∧
      storeLookup (generateLink cfg authorization data now key nonce probe store).store
        (String.append "link:" resp.short_code) = some sv ∧
      sv.ttl_seconds = cfg.expiration_hours * 3600 ∧
      sv.metadata = ⟨timeStr resp.created_at, timeStr resp.expires_at⟩ ∧
      decryptJson key sv.encrypted_data =
        some (genRecord data token resp.created_at resp.expires_at) := by
  cases htok : extractToken authorization with
  | none =>
    simp only [generateLink, htok] at hok
    exact absurd hok (by simp)
  | some token =>
    simp only [generateLink, htok] at hok ⊢
    by_cases h5 : (loopGo probe (encryptJson key nonce (genRecord data token now
        (now + cfg.expiration_hours * 3600))) now 0
        (generate_short_code (encryptJson key nonce (genRecord data token now
          (now + cfg.expiration_hours * 3600))) 8)).1 ≥ 5
    · rw [if_pos h5] at hok
      exact absurd hok (by simp)
    · rw [if_neg h5] at hok
      rw [if_neg h5]
      dsimp only at hok
      injection hok with h
      subst h
      exact ⟨rfl, rfl, token, _, rfl, storeLookup_insert_self _ _ _, rfl, rfl,
        decryptJson_encryptJson key nonce _⟩

theorem generate_success_invariants_witness :
    c8Resp.created_at = 0 ∧
    c8Resp.expires_at = c8Resp.created_at + (⟨1, 2⟩ : RepoConfig).expiration_hours * 3600 ∧
    ∃ (token : String) (sv : StoredValue),
      extractToken (some "tok") = some token ∧
      storeLookup (generateLink ⟨1, 2⟩ (some "tok") c8Data 0 [5] [6]
          (fun _ => false) []).store
        (String.append "link:" c8Resp.short_code) = some sv ∧
      sv.ttl_seconds = (⟨1, 2⟩ : RepoConfig).expiration_hours * 3600 ∧
      sv.metadata = ⟨timeStr c8Resp.created_at, timeStr c8Resp.expires_at⟩ ∧
      decryptJson [5] sv.encrypted_data =
        some (genRecord c8Data token c8Resp.created_at c8Resp.expires_at) :=
  generate_success_invariants ⟨1, 2⟩ (some "tok") c8Data 0 [5] [6] (fun _ => false) [] c8Resp
    (by
      rw [generateLink_success ⟨1, 2⟩ (some "tok") c8Data 0 [5] [6] (fun _ => false) []
        "tok" 0 rfl (by omega) (fun i hi => absurd hi (Nat.not_lt_zero i)) rfl]
      rfl)

/-- C9 as stated is refuted: a stored entry decrypting to the non-empty
record with no expires_at key but a truthy non-string encrypted_at makes
validate raise (fromisoformat on a non-string), returning no response at
all instead of the claimed valid=true response. -/
theorem validate_no_expiry_counterexample :
    validateLink [11] c9CexStore 99 "x" = none := by
  have hget : storeLookup c9CexStore (String.append "link:" "x") = some c9CexValue := rfl
  have hdec : decryptJson [11] c9CexValue.encrypted_data =
      some (Json.obj [("encrypted_at", Json.int 1)]) :=
    decryptJson_encryptJson [11] [12] _
  simp only [validateLink, hget, hdec]
  simp [jsonTruthy, jsonGet, validTail]

/-- C9 (amended): a stored entry whose decryption yields a non-empty record
without an expires_at key (or with a falsy one) skips the expiry check for
every current time and validates successfully — provided the record's
encrypted_at is likewise absent, falsy, or a parseable timestamp string
(otherwise the controller raises instead of answering). -/
theorem validate_no_expiry_amended (key : List Nat) (store : Store) (now : Nat)
    (code : String) (sv : StoredValue) (fields : List (String × Json))
    (hget : storeLookup store (String.append "link:" code) = some sv)
    (hdec : decryptJson key sv.encrypted_data = some (Json.obj fields))
    (hne : fields ≠ [])
    (hexp : jsonGet fields "expires_at" = none ∨
      ∃ v, jsonGet fields "expires_at" = some v ∧ jsonTruthy v = false)
    (henc : jsonGet fields "encrypted_at" = none ∨
      (∃ v, jsonGet fields "encrypted_at" = some v ∧ jsonTruthy v = false) ∨
      (∃ s t, jsonGet fields "encrypted_at" = some (Json.str s) ∧ s ≠ "" ∧
        parseTime s = some t)) :
    ∃ ea : Option Nat,
      validateLink key store now code =
        some ⟨true, jsonGet fields "data", jsonGet fields "token", ea, none⟩ := by
  have htr : jsonTruthy (Json.obj fields) = true := by
    simp [jsonTruthy, List.isEmpty_iff, hne]
  have htail : ∃ ea : Option Nat, validTail fields =
      some ⟨true, jsonGet fields "data", jsonGet fields "token", ea, none⟩ := by
    rcases henc with h | ⟨v, hv, hfv⟩ | ⟨s, t, hs, hsne, hp⟩
    · exact ⟨none, by simp only [validTail, h]⟩
    · refine ⟨none, ?_⟩
      simp only [validTail, hv, hfv]
      simp
    · refine ⟨some t, ?_⟩
      have hst : jsonTruthy (Json.str s) = true := by simp [jsonTruthy, hsne]
      simp only [validTail, hs, hst, hp]
      simp
  obtain ⟨ea, htail⟩ := htail
  refine ⟨ea, ?_⟩
  simp only [validateLink, hget, hdec, htr]
  rcases hexp with h | ⟨v, hv, hfv⟩
  · simp only [h, htail]
    simp
  · simp only [hv, hfv, htail]
    simp

theorem validate_no_expiry_amended_witness :
    ∃ ea : Option Nat,
      validateLink [13] c9WitStore 123 "y" =
        some ⟨true, jsonGet [("token", Json.str "t")] "data",
          jsonGet [("token", Json.str "t")] "token", ea, none⟩ :=
  validate_no_expiry_amended [13] c9WitStore 123 "y" c9WitValue [("token", Json.str "t")]
    rfl (decryptJson_encryptJson [13] [14] _) (by simp) (Or.inl rfl) (Or.inl rfl)
